import Mathlib

/-!
Verification of the task/project domain layer of the tasks-mcp repository
(a TypeScript, Redis-backed MCP task manager).

The development shallowly embeds the relevant source files:
  * `src/types.ts`             — entity records and option records
  * `src/services/projectService.ts` — `ProjectService`
  * `src/services/taskService.ts`    — `TaskService` (create / list / move / update / archive)
  * `src/tools/tasks.ts`       — `parseSearchQuery` and the `search_tasks` filter

Modelling conventions:
  * The Redis-backed repositories are modelled by a `Store` holding the list of
    persisted projects and tasks; `getById` is key lookup, `save` is an
    overwrite-by-id, `create` registers a new record, `saveMany` is the batch
    pipeline of `save`s.  Every repository call an operation performs is also
    recorded in an effect trace (`RepoOp`), so that claims about which reads
    and writes happen can be stated.
  * `new Date().toISOString()` and `randomUUID()` are nondeterministic inputs
    of the TypeScript code; they are passed in as explicit `now` / `freshId`
    arguments.
  * Timestamps and dates are ISO-8601 strings; the JavaScript `Date`
    comparisons of the source are modelled by lexicographic string comparison,
    which agrees with chronological order on uniform-format ISO strings.
  * ECMAScript string built-ins (`trim`, `toLowerCase`, `includes`,
    `startsWith`, `split`, `substring`) are modelled by executable functions
    on the character list of the string.  `String.prototype.split(sep, 2)`
    keeps only the first two segments of the full split (it truncates, it
    does not keep a remainder), which the model reproduces.
  * JavaScript truthiness tests on optional strings (`if (x)` for
    `x : string | undefined`) are false exactly on `undefined` and `""`;
    `optTruthy` models this.
  * `Array.prototype.sort` with a comparator is a stable sort; it is modelled
    by a stable insertion sort over the boolean relation `cmp a b ≤ 0`.
-/

deriving instance DecidableEq for Except

namespace TasksMcp

/-! ## Models of the ECMAScript string built-ins -/

/-- Model of `String.prototype.trim`: strip leading and trailing whitespace. -/
def jsTrim (s : String) : String :=
  String.mk (((s.data.dropWhile Char.isWhitespace).reverse.dropWhile Char.isWhitespace).reverse)

/-- Model of `String.prototype.toLowerCase` (ASCII-faithful). -/
def jsToLower (s : String) : String :=
  String.mk (s.data.map Char.toLower)

/-- Substring test on character lists: does the needle occur in the haystack? -/
def containsSub : List Char → List Char → Bool
  | _, [] => true
  | [], _ :: _ => false
  | h :: hs, n :: ns => (n :: ns).isPrefixOf (h :: hs) || containsSub hs (n :: ns)

/-- Model of `String.prototype.includes`. -/
def jsIncludes (s sub : String) : Bool :=
  containsSub s.data sub.data

/-- Model of `String.prototype.startsWith`. -/
def jsStartsWith (s pre : String) : Bool :=
  pre.data.isPrefixOf s.data

/-- Model of `String.prototype.substring(n)`. -/
def jsDrop (s : String) (n : Nat) : String :=
  String.mk (s.data.drop n)

/-- Model of `String.prototype.split(c)` for a single-character separator:
empty segments are kept, exactly as in JavaScript. -/
def jsSplitChar (c : Char) (s : String) : List String :=
  (s.data.splitOnP (· == c)).map String.mk

/-- Model of `String.prototype.split(/\s+/)`.  The regex split never produces
internal empty segments; a leading empty segment only ever pads the free-text
accumulator of the query parser with whitespace that is trimmed at the end, so
dropping empty segments is behaviourally equivalent. -/
def jsSplitWs (s : String) : List String :=
  ((s.data.splitOnP Char.isWhitespace).map String.mk).filter (fun p => !p.isEmpty)

/-- JavaScript truthiness of an optional string: `undefined` and `""` are falsy. -/
def optTruthy : Option String → Bool
  | some s => !s.isEmpty
  | none => false

/-! ## Stable sort (model of `Array.prototype.sort` with a comparator) -/

/-- Insert an element in front of the first list element it is `le`-below,
keeping it before elements with an equal key: combined with `isort` this is a
stable sort, as `Array.prototype.sort` is. -/
def ins (le : α → α → Bool) (x : α) : List α → List α
  | [] => [x]
  | y :: ys => if le x y then x :: y :: ys else y :: ins le x ys

/-- Stable insertion sort by a boolean relation. -/
def isort (le : α → α → Bool) : List α → List α
  | [] => []
  | x :: xs => ins le x (isort le xs)

/-! ## `src/types.ts` -/

/-- Task status union `"todo" | "pending" | "completed" | "archived"`. -/
inductive TaskStatus
  | todo
  | pending
  | completed
  | archived
deriving DecidableEq

/-- Task priority union `"low" | "medium" | "high"`. -/
inductive TaskPriority
  | low
  | medium
  | high
deriving DecidableEq

/-- Project record, as consumed by `services/projectService.ts` (the project
record this service builds has no tags field; timestamps are ISO strings). -/
structure Project where
  id : String
  name : String
  description : Option String
  archived : Bool
  createdAt : String
  updatedAt : String
deriving DecidableEq

/-- Task record, as consumed by `services/taskService.ts`. -/
structure Task where
  id : String
  projectId : String
  title : String
  description : Option String
  status : TaskStatus
  priority : Option TaskPriority
  dueDate : Option String
  tags : List String
  parentTaskId : Option String
  archived : Bool
  createdAt : String
  updatedAt : String
deriving DecidableEq

/-- Sort keys of `ListTasksOptions.sortBy`. -/
inductive SortBy
  | createdAt
  | dueDate
  | priority
  | title
deriving DecidableEq

/-- Sort orders of `ListTasksOptions.order`. -/
inductive SortOrder
  | asc
  | desc
deriving DecidableEq

/-- `ListTasksOptions` of `src/types.ts`; absent fields are `none`. -/
structure ListTasksOptions where
  projectId : Option String := none
  includeArchived : Option Bool := none
  status : Option TaskStatus := none
  priority : Option TaskPriority := none
  tags : Option (List String) := none
  hasSubtasks : Option Bool := none
  sortBy : Option SortBy := none
  order : Option SortOrder := none
deriving DecidableEq

/-- `CreateTaskInput` of `services/taskService.ts`. -/
structure CreateTaskInput where
  projectId : String
  title : String
  description : Option String := none
  priority : Option TaskPriority := none
  dueDate : Option String := none
  tags : Option (List String) := none
  parentTaskId : Option String := none
deriving DecidableEq

/-- `UpdateTaskInput` of `services/taskService.ts`. -/
structure UpdateTaskInput where
  taskId : String
  title : Option String := none
  description : Option String := none
  priority : Option TaskPriority := none
  dueDate : Option String := none
  tags : Option (List String) := none
deriving DecidableEq

/-- `CreateProjectInput` of `services/projectService.ts`. -/
structure CreateProjectInput where
  name : String
  description : Option String := none
deriving DecidableEq

/-! ## Repository model (`repositories/projectRepository.ts`, `repositories/taskRepository.ts`) -/

/-- The persisted state: every project and task record in the store. -/
structure Store where
  projects : List Project
  tasks : List Task
deriving DecidableEq

/-- One repository call, recorded in the effect trace of an operation. -/
inductive RepoOp
  | projGet (id : String)
  | projSave (id : String)
  | projCreate (id : String)
  | taskGet (id : String)
  | taskSave (id : String)
  | taskCreate (id : String)
  | taskSaveMany (ids : List String)
  | taskListByProject (projectId : String)
deriving DecidableEq

/-- Whether a repository call writes to the store. -/
def RepoOp.isWrite : RepoOp → Bool
  | .projSave _ => true
  | .projCreate _ => true
  | .taskSave _ => true
  | .taskCreate _ => true
  | .taskSaveMany _ => true
  | _ => false

/-- `projectRepository.getById`. -/
def projGetById (s : Store) (id : String) : Option Project :=
  s.projects.find? (fun p => p.id == id)

/-- `taskRepository.getById`. -/
def taskGetById (s : Store) (id : String) : Option Task :=
  s.tasks.find? (fun t => t.id == id)

/-- `taskRepository.listByProject`: the tasks registered under the project's
task index. -/
def taskListByProject (s : Store) (projectId : String) : List Task :=
  s.tasks.filter (fun t => t.projectId == projectId)

/-- `projectRepository.save`: overwrite the record stored under the project's id. -/
def saveProject (s : Store) (p : Project) : Store :=
  { s with projects := s.projects.map (fun q => if q.id == p.id then p else q) }

/-- `taskRepository.save`: overwrite the record stored under the task's id. -/
def saveTask (s : Store) (t : Task) : Store :=
  { s with tasks := s.tasks.map (fun u => if u.id == t.id then t else u) }

/-- `taskRepository.saveMany`: the batch pipeline of `save`s. -/
def saveManyTasks (s : Store) (ts : List Task) : Store :=
  ts.foldl saveTask s

/-- `projectRepository.create`: persist a fresh record and register it in the
list-all index. -/
def createProjectRecord (s : Store) (p : Project) : Store :=
  { s with projects := s.projects ++ [p] }

/-- `taskRepository.create`: persist a fresh record and register it in the
task indexes. -/
def createTaskRecord (s : Store) (t : Task) : Store :=
  { s with tasks := s.tasks ++ [t] }

/-- Result of a service operation: the returned value or thrown error message,
the store after the call, and the trace of repository calls made. -/
structure Res (α : Type) where
  result : Except String α
  store : Store
  trace : List RepoOp

/-! ## `services/projectService.ts` -/

/-- Comparator of `listProjects`: `left.createdAt.localeCompare(right.createdAt)`,
as the boolean relation `cmp ≤ 0` of the stable sort. -/
def projLe (a b : Project) : Bool :=
  compare a.createdAt b.createdAt ≠ Ordering.gt

/-- `ProjectService.createProject`: trim name and description, build the record
with a fresh id and timestamp pair, persist it. -/
def createProject (s : Store) (input : CreateProjectInput) (freshId now : String) :
    Res Project :=
  let project : Project :=
    { id := freshId
      name := jsTrim input.name
      description := input.description.map jsTrim
      archived := false
      createdAt := now
      updatedAt := now }
  ⟨.ok project, createProjectRecord s project, [.projCreate freshId]⟩

/-- `ProjectService.listProjects`: all projects, filtered to active ones unless
archived projects are requested, sorted ascending by `createdAt`. -/
def listProjects (s : Store) (includeArchived : Bool) : List Project :=
  if includeArchived then
    isort projLe s.projects
  else
    isort projLe (s.projects.filter (fun p => !p.archived))

/-- The per-task rewrite of the archive cascade: an already-archived task is
returned as-is, any other task is archived with the cascade's timestamp. -/
def archiveTaskRewrite (now : String) (task : Task) : Task :=
  if task.archived then task
  else { task with archived := true, status := TaskStatus.archived, updatedAt := now }

/-- `ProjectService.archiveProject`: no-op on an archived project; otherwise
mark the project archived, persist it, then rewrite every non-archived task of
the project to archived status with the same timestamp and persist the batch. -/
def archiveProject (s : Store) (id now : String) : Res Project :=
  match projGetById s id with
  | none => ⟨.error ("Project " ++ id ++ " does not exist."), s, [.projGet id]⟩
  | some project =>
    if project.archived then
      ⟨.ok project, s, [.projGet id]⟩
    else
      let updatedProject := { project with archived := true, updatedAt := now }
      let s1 := saveProject s updatedProject
      let tasks := taskListByProject s1 project.id
      let updatedTasks := tasks.map (archiveTaskRewrite now)
      ⟨.ok updatedProject, saveManyTasks s1 updatedTasks,
        [.projGet id, .projSave project.id, .taskListByProject project.id,
          .taskSaveMany (updatedTasks.map Task.id)]⟩

/-! ## `services/taskService.ts` -/

/-- Membership test of `VALID_STATUSES`, returning the parsed status: the
`moveTask` status argument arrives as a string at the service boundary. -/
def statusOfString (s : String) : Option TaskStatus :=
  if s == "todo" then some .todo
  else if s == "pending" then some .pending
  else if s == "completed" then some .completed
  else if s == "archived" then some .archived
  else none

/-- Parse of a priority token (used by the search-query parser). -/
def priorityOfString (s : String) : Option TaskPriority :=
  if s == "low" then some .low
  else if s == "medium" then some .medium
  else if s == "high" then some .high
  else none

/-- Numeric priority key of the sort comparator: `low=1, medium=2, high=3`,
unset `=0`. -/
def priorityOrd : Option TaskPriority → Nat
  | none => 0
  | some .low => 1
  | some .medium => 2
  | some .high => 3

/-- Comparator of `sortTasks`, as the boolean relation `cmp ≤ 0` (ascending)
or `cmp ≥ 0` (descending) of the stable sort.  Date-valued keys compare
lexicographically (see the module docstring); a missing due date takes the
maximal key `"9999-12-31"`. -/
def taskSortLe (sb : SortBy) (ord : SortOrder) (a b : Task) : Bool :=
  let cmp : Ordering :=
    match sb with
    | .createdAt => compare a.createdAt b.createdAt
    | .dueDate => compare (a.dueDate.getD "9999-12-31") (b.dueDate.getD "9999-12-31")
    | .priority => compare (priorityOrd a.priority) (priorityOrd b.priority)
    | .title => compare (jsToLower a.title) (jsToLower b.title)
  match ord with
  | .asc => cmp ≠ Ordering.gt
  | .desc => cmp ≠ Ordering.lt

/-- `TaskService.sortTasks`. -/
def jsSortTasks (sb : SortBy) (ord : SortOrder) (ts : List Task) : List Task :=
  isort (taskSortLe sb ord) ts

/-- `TaskService.createTask`: require an active project, validate an optional
parent-task reference, build the record (trimmed title, `todo` status, fresh
id and timestamps) and persist it. -/
def createTask (s : Store) (input : CreateTaskInput) (freshId now : String) :
    Res Task :=
  match projGetById s input.projectId with
  | none =>
    ⟨.error ("Project " ++ input.projectId ++ " does not exist."), s,
      [.projGet input.projectId]⟩
  | some project =>
    if project.archived then
      ⟨.error ("Project " ++ input.projectId ++ " is archived."), s,
        [.projGet input.projectId]⟩
    else
      let finish : List RepoOp → Res Task := fun reads =>
        let task : Task :=
          { id := freshId
            projectId := project.id
            title := jsTrim input.title
            description := input.description.map jsTrim
            status := .todo
            priority := input.priority
            dueDate := input.dueDate
            tags := input.tags.getD []
            parentTaskId := input.parentTaskId
            archived := false
            createdAt := now
            updatedAt := now }
        ⟨.ok task, createTaskRecord s task, reads ++ [.taskCreate freshId]⟩
      if optTruthy input.parentTaskId then
        let pid := input.parentTaskId.getD ""
        match taskGetById s pid with
        | none =>
          ⟨.error ("Parent task " ++ pid ++ " does not exist."), s,
            [.projGet input.projectId, .taskGet pid]⟩
        | some parentTask =>
          if parentTask.projectId != input.projectId then
            ⟨.error "Parent task must be in the same project.", s,
              [.projGet input.projectId, .taskGet pid]⟩
          else
            finish [.projGet input.projectId, .taskGet pid]
      else
        finish [.projGet input.projectId]

/-- Lookup in the project map that `listTasks` builds from
`listProjects({includeArchived: true})`: a JavaScript `Map` built from a list
of entries keeps the last entry for a key, hence the reversed search. -/
def projectMapGet (ps : List Project) (id : String) : Option Project :=
  ps.reverse.find? (fun p => p.id == id)

/-- Status equality filter of `listTasks` (`if (options.status)`). -/
def stageStatus (o : ListTasksOptions) (ts : List Task) : List Task :=
  match o.status with
  | some st => ts.filter (fun task => task.status == st)
  | none => ts

/-- Priority equality filter of `listTasks` (`if (options.priority)`). -/
def stagePriority (o : ListTasksOptions) (ts : List Task) : List Task :=
  match o.priority with
  | some p => ts.filter (fun task => task.priority == some p)
  | none => ts

/-- Any-of tag filter of `listTasks` (`if (options.tags && options.tags.length > 0)`). -/
def stageTags (o : ListTasksOptions) (ts : List Task) : List Task :=
  match o.tags with
  | some tags =>
    if tags.length > 0 then
      ts.filter (fun task => tags.any (fun tag => task.tags.contains tag))
    else ts
  | none => ts

/-- `hasSubtasks` partition of `listTasks`, computed against the full task
universe re-read from the repository (`if (options.hasSubtasks !== undefined)`). -/
def stageHasSubtasks (s : Store) (o : ListTasksOptions) (ts : List Task) : List Task :=
  match o.hasSubtasks with
  | some b =>
    let taskIdsWithSubtasks :=
      (s.tasks.filter (fun t => optTruthy t.parentTaskId)).filterMap (fun t => t.parentTaskId)
    if b then ts.filter (fun task => taskIdsWithSubtasks.contains task.id)
    else ts.filter (fun task => !taskIdsWithSubtasks.contains task.id)
  | none => ts

/-- Attribute-filter stages of `TaskService.listTasks`, applied in source
order: status, priority, tags, `hasSubtasks`. -/
def applyTaskFilters (s : Store) (o : ListTasksOptions) (ts0 : List Task) : List Task :=
  stageHasSubtasks s o (stageTags o (stagePriority o (stageStatus o ts0)))

/-- `TaskService.listTasks`: scope resolution (single project, short-circuit
to `[]` on an archived project unless archived items are requested, else all
tasks), archived-visibility filtering, attribute filters, stable sort. -/
def listTasks (s : Store) (o : ListTasksOptions) : Except String (List Task) :=
  let includeArchived := o.includeArchived.getD false
  let sb := o.sortBy.getD SortBy.createdAt
  let ord := o.order.getD SortOrder.asc
  if optTruthy o.projectId then
    let pid := o.projectId.getD ""
    match projGetById s pid with
    | none => .error ("Project " ++ pid ++ " does not exist.")
    | some project =>
      if project.archived && !includeArchived then .ok []
      else
        let ts := taskListByProject s project.id
        let ts := if !includeArchived then ts.filter (fun t => !t.archived) else ts
        .ok (jsSortTasks sb ord (applyTaskFilters s o ts))
  else
    let ts := s.tasks
    let ts :=
      if !includeArchived then
        let pmap := listProjects s true
        ts.filter (fun t =>
          !t.archived &&
            match projectMapGet pmap t.projectId with
            | some p => !p.archived
            | none => false)
      else ts
    .ok (jsSortTasks sb ord (applyTaskFilters s o ts))

/-- `TaskService.moveTask`: require the task, require its project active,
require a valid status string, then set the status, the derived archived flag
and the timestamp, and persist. -/
def moveTask (s : Store) (taskId status now : String) : Res Task :=
  match taskGetById s taskId with
  | none => ⟨.error ("Task " ++ taskId ++ " does not exist."), s, [.taskGet taskId]⟩
  | some task =>
    match projGetById s task.projectId with
    | none =>
      ⟨.error ("Project " ++ task.projectId ++ " does not exist."), s,
        [.taskGet taskId, .projGet task.projectId]⟩
    | some project =>
      if project.archived then
        ⟨.error "Cannot update tasks inside an archived project.", s,
          [.taskGet taskId, .projGet task.projectId]⟩
      else
        match statusOfString status with
        | none =>
          ⟨.error ("Unsupported task status \"" ++ status ++
              "\". Valid values: todo, pending, completed, archived"), s,
            [.taskGet taskId, .projGet task.projectId]⟩
        | some st =>
          let updated : Task :=
            { task with status := st, archived := status == "archived", updatedAt := now }
          ⟨.ok updated, saveTask s updated,
            [.taskGet taskId, .projGet task.projectId, .taskSave task.id]⟩

/-- `TaskService.updateTask`: require the task, require its project active,
overwrite exactly the supplied fields (trimming title and description), bump
the timestamp, persist. -/
def updateTask (s : Store) (input : UpdateTaskInput) (now : String) : Res Task :=
  match taskGetById s input.taskId with
  | none =>
    ⟨.error ("Task " ++ input.taskId ++ " does not exist."), s, [.taskGet input.taskId]⟩
  | some task =>
    match projGetById s task.projectId with
    | none =>
      ⟨.error ("Project " ++ task.projectId ++ " does not exist."), s,
        [.taskGet input.taskId, .projGet task.projectId]⟩
    | some project =>
      if project.archived then
        ⟨.error "Cannot update tasks inside an archived project.", s,
          [.taskGet input.taskId, .projGet task.projectId]⟩
      else
        let updated : Task :=
          { task with
            title := match input.title with | some t => jsTrim t | none => task.title
            description :=
              match input.description with
              | some d => some (jsTrim d)
              | none => task.description
            priority := match input.priority with | some p => some p | none => task.priority
            dueDate := match input.dueDate with | some d => some d | none => task.dueDate
            tags := match input.tags with | some tg => tg | none => task.tags
            updatedAt := now }
        ⟨.ok updated, saveTask s updated,
          [.taskGet input.taskId, .projGet task.projectId, .taskSave task.id]⟩

/-- `TaskService.archiveTask`: sugar for `moveTask(taskId, "archived")`. -/
def archiveTask (s : Store) (taskId now : String) : Res Task :=
  moveTask s taskId "archived" now

/-! ## `tools/tasks.ts` — the search-query mini-language -/

/-- Structured filters extracted by `parseSearchQuery`. -/
structure SearchFilters where
  text : Option String := none
  priority : Option TaskPriority := none
  status : Option TaskStatus := none
  dueBefore : Option String := none
  dueAfter : Option String := none
  projectName : Option String := none
deriving DecidableEq

/-- Process a single whitespace-separated token of the query.  A token with a
colon is split by `part.split(":", 2)`, which keeps only the first two
colon-separated segments; recognized keys set the matching filter, anything
else is ignored.  A token without a colon is appended to the free-text
accumulator. -/
def applySearchToken (f : SearchFilters) (part : String) : SearchFilters :=
  if part.data.contains ':' then
    match jsSplitChar ':' part with
    | key :: value :: _ =>
      let keyL := jsToLower key
      if keyL == "priority" then
        match priorityOfString (jsToLower value) with
        | some p => { f with priority := some p }
        | none => f
      else if keyL == "status" then
        match statusOfString (jsToLower value) with
        | some st => { f with status := some st }
        | none => f
      else if keyL == "due" then
        if jsStartsWith value "before:" then { f with dueBefore := some (jsDrop value 7) }
        else if jsStartsWith value "after:" then { f with dueAfter := some (jsDrop value 6) }
        else f
      else if keyL == "project" then { f with projectName := some value }
      else f
    | _ => f
  else
    { f with text := some ((f.text.getD "") ++ " " ++ part) }

/-- `parseSearchQuery` of `tools/tasks.ts`: fold the tokens, then trim the
accumulated free text (the source guards the trim on truthiness, but an
accumulated text is never empty before trimming). -/
def parseSearchQuery (query : String) : SearchFilters :=
  let f := (jsSplitWs query).foldl applySearchToken {}
  { f with text := f.text.map jsTrim }

/-- The filter predicate of the `search_tasks` tool: case-insensitive
substring match of the free text against title or description, equality on
priority and status, and due-date window checks that are skipped whenever the
task has no due date (JavaScript truthiness guards on both sides). -/
def taskMatchesSearch (f : SearchFilters) (task : Task) : Bool :=
  (match f.text with
   | some text =>
     if text.isEmpty then true
     else
       jsIncludes (jsToLower task.title) (jsToLower text) ||
         (match task.description with
          | some d => !d.isEmpty && jsIncludes (jsToLower d) (jsToLower text)
          | none => false)
   | none => true) &&
  (match f.priority with
   | some p => task.priority == some p
   | none => true) &&
  (match f.status with
   | some st => task.status == st
   | none => true) &&
  (match f.dueBefore, task.dueDate with
   | some db, some dd =>
     if db.isEmpty || dd.isEmpty then true else compare dd db == Ordering.lt
   | _, _ => true) &&
  (match f.dueAfter, task.dueDate with
   | some da, some dd =>
     if da.isEmpty || dd.isEmpty then true else compare dd da == Ordering.gt
   | _, _ => true)

/-- The `search_tasks` tool: list all tasks (honoring `includeArchived`),
filter by the parsed query when one is supplied, filter by the comma-separated
tag list when one is supplied, sort with the shared sort semantics. -/
def searchTasks (s : Store) (query tags : Option String)
    (sortBy : Option SortBy) (order : Option SortOrder)
    (includeArchived : Option Bool) : Except String (List Task) :=
  match listTasks s { includeArchived := includeArchived } with
  | .error e => .error e
  | .ok allTasks =>
    let filtered :=
      if optTruthy query then
        allTasks.filter (taskMatchesSearch (parseSearchQuery (query.getD "")))
      else allTasks
    let filtered :=
      if optTruthy tags then
        let parsedTags :=
          ((jsSplitChar ',' (tags.getD "")).map jsTrim).filter (fun t => !t.isEmpty)
        filtered.filter (fun task => parsedTags.any (fun tag => task.tags.contains tag))
      else filtered
    .ok (jsSortTasks (sortBy.getD SortBy.createdAt) (order.getD SortOrder.asc) filtered)

/-! ## Store invariants -/

/-- The data-model invariant of the task state machine: the archived flag is
derived from the status. -/
def TasksWF (s : Store) : Prop :=
  ∀ t ∈ s.tasks, t.archived = (t.status == TaskStatus.archived)

/-- Task ids are unique: `taskRepository.create` keys each record by a fresh
UUID, so reachable stores satisfy this. -/
def TaskIdsNodup (s : Store) : Prop :=
  (s.tasks.map Task.id).Nodup

/-- Project ids are unique (fresh UUID per `projectRepository.create`). -/
def ProjIdsNodup (s : Store) : Prop :=
  (s.projects.map Project.id).Nodup

/-- Project ids are nonempty strings (they are UUIDs). -/
def ProjIdsPresent (s : Store) : Prop :=
  ∀ p ∈ s.projects, p.id ≠ ""

/-! ## Concrete fixtures used by witness theorems -/

/-- An active demo project. -/
def demoProject : Project :=
  { id := "p1", name := "Launch", description := none, archived := false,
    createdAt := "2025-01-01T00:00:00Z", updatedAt := "2025-01-01T00:00:00Z" }

/-- A demo task under `demoProject` with priority `high` and no due date. -/
def demoTask : Task :=
  { id := "t1", projectId := "p1", title := "Launch prep", description := none,
    status := .todo, priority := some .high, dueDate := none, tags := [],
    parentTaskId := none, archived := false,
    createdAt := "2025-01-02T00:00:00Z", updatedAt := "2025-01-02T00:00:00Z" }

/-- A demo store holding `demoProject` and `demoTask`. -/
def demoStore : Store :=
  { projects := [demoProject], tasks := [demoTask] }

/-- The replacement step of an overwrite-by-id: the accumulator is replaced
exactly when the saved record carries its id.  `saveTask` maps this step over
the store. -/
def taskStep (cur t : Task) : Task :=
  if cur.id == t.id then t else cur

/-! ## General lemmas about the sort and the repository model -/

theorem mem_ins {le : α → α → Bool} (x y : α) (l : List α) :
    y ∈ ins le x l ↔ y = x ∨ y ∈ l := by
  induction l with
  | nil => simp [ins]
  | cons z zs ih =>
    simp only [ins]
    by_cases h : le x z = true
    · simp [h]
    · rw [if_neg h]
      simp only [List.mem_cons, ih]
      tauto

theorem mem_isort {le : α → α → Bool} (y : α) (l : List α) :
    y ∈ isort le l ↔ y ∈ l := by
  induction l with
  | nil => simp [isort]
  | cons z zs ih =>
    simp [isort, mem_ins, ih]

theorem mem_jsSortTasks {sb : SortBy} {ord : SortOrder} {t : Task} {ts : List Task} :
    t ∈ jsSortTasks sb ord ts ↔ t ∈ ts :=
  mem_isort t ts

theorem saveTask_tasks (s : Store) (t : Task) :
    (saveTask s t).tasks = s.tasks.map (fun u => taskStep u t) :=
  rfl

theorem saveTask_projects (s : Store) (t : Task) :
    (saveTask s t).projects = s.projects :=
  rfl

theorem saveManyTasks_tasks (ts : List Task) (s : Store) :
    (saveManyTasks s ts).tasks = s.tasks.map (fun u => ts.foldl taskStep u) := by
  induction ts generalizing s with
  | nil => simp [saveManyTasks]
  | cons t rest ih =>
    show (saveManyTasks (saveTask s t) rest).tasks = _
    rw [ih, saveTask_tasks, List.map_map]
    simp [Function.comp, List.foldl_cons]

theorem saveManyTasks_projects (ts : List Task) (s : Store) :
    (saveManyTasks s ts).projects = s.projects := by
  induction ts generalizing s with
  | nil => rfl
  | cons t rest ih =>
    show (saveManyTasks (saveTask s t) rest).projects = _
    rw [ih, saveTask_projects]

theorem foldl_taskStep_of_ne (ts : List Task) (u : Task)
    (h : ∀ t ∈ ts, t.id ≠ u.id) : ts.foldl taskStep u = u := by
  induction ts with
  | nil => rfl
  | cons t rest ih =>
    have hne : (u.id == t.id) = false :=
      beq_eq_false_iff_ne.mpr (fun he => h t (by simp) he.symm)
    simp only [List.foldl_cons, taskStep, hne, if_false]
    exact ih (fun x hx => h x (by simp [hx]))

theorem foldl_taskStep_nodup (ts : List Task) (h : (ts.map Task.id).Nodup) (u : Task) :
    ts.foldl taskStep u = (ts.find? (fun t => t.id == u.id)).getD u := by
  induction ts with
  | nil => rfl
  | cons t rest ih =>
    simp only [List.map_cons, List.nodup_cons, List.mem_map] at h
    by_cases hid : (t.id == u.id) = true
    · have hteq : t.id = u.id := beq_iff_eq.mp hid
      have hstep : taskStep u t = t := by
        simp [taskStep, beq_iff_eq.mpr hteq.symm]
      rw [List.foldl_cons, hstep,
        List.find?_cons_of_pos (p := fun x => x.id == u.id) rest hid, Option.getD_some]
      exact foldl_taskStep_of_ne rest t
        (fun x hx he => h.1 ⟨x, hx, he⟩)
    · have hstep : taskStep u t = u := by
        have : (u.id == t.id) = false :=
          beq_eq_false_iff_ne.mpr (fun he => hid (beq_iff_eq.mpr he.symm))
        simp [taskStep, this]
      rw [List.foldl_cons, hstep,
        List.find?_cons_of_neg (p := fun x => x.id == u.id) rest (by simp [hid])]
      exact ih h.2

theorem foldl_taskStep_mem (ts : List Task) (u : Task) :
    ts.foldl taskStep u = u ∨ ts.foldl taskStep u ∈ ts := by
  induction ts generalizing u with
  | nil => exact Or.inl rfl
  | cons t rest ih =>
    rw [List.foldl_cons]
    rcases ih (taskStep u t) with h | h
    · rw [h]
      by_cases hc : (u.id == t.id) = true
      · exact Or.inr (by simp [taskStep, hc])
      · simp only [taskStep, hc, if_false]
        exact Or.inl rfl
    · exact Or.inr (List.mem_cons_of_mem _ h)

theorem archiveTaskRewrite_id (now : String) (t : Task) :
    (archiveTaskRewrite now t).id = t.id := by
  unfold archiveTaskRewrite
  split <;> rfl

theorem archiveTaskRewrite_projectId (now : String) (t : Task) :
    (archiveTaskRewrite now t).projectId = t.projectId := by
  unfold archiveTaskRewrite
  split <;> rfl

theorem saveProject_tasks (s : Store) (p : Project) :
    (saveProject s p).tasks = s.tasks :=
  rfl

/-! ## Characterization of the archive cascade -/

theorem archiveProject_result (s : Store) (id now : String) (p : Project)
    (hfind : projGetById s id = some p) (hnarch : p.archived = false) :
    (archiveProject s id now).result = .ok { p with archived := true, updatedAt := now } := by
  unfold archiveProject
  rw [hfind]
  simp [hnarch]

theorem archiveProject_projects (s : Store) (id now : String) (p : Project)
    (hfind : projGetById s id = some p) (hnarch : p.archived = false) :
    (archiveProject s id now).store.projects
      = s.projects.map (fun q =>
          if q.id == p.id then { p with archived := true, updatedAt := now } else q) := by
  unfold archiveProject
  rw [hfind]
  simp [hnarch, saveManyTasks_projects, saveProject]

theorem archiveProject_tasks (s : Store) (id now : String) (p : Project)
    (hfind : projGetById s id = some p) (hnarch : p.archived = false)
    (huniq : TaskIdsNodup s) :
    (archiveProject s id now).store.tasks
      = s.tasks.map (fun t =>
          if t.projectId == p.id && !t.archived
          then { t with archived := true, status := TaskStatus.archived, updatedAt := now }
          else t) := by
  unfold archiveProject
  rw [hfind]
  simp only [hnarch, Bool.false_eq_true, if_false]
  rw [saveManyTasks_tasks]
  show s.tasks.map _ = _
  apply List.map_congr_left
  intro u hu
  set ts := (taskListByProject (saveProject s
      { p with archived := true, updatedAt := now }) p.id).map (archiveTaskRewrite now)
    with hts
  have hfiltered : ts = (s.tasks.filter (fun t => t.projectId == p.id)).map
      (archiveTaskRewrite now) := rfl
  have hids : ts.map Task.id = (s.tasks.filter (fun t => t.projectId == p.id)).map Task.id := by
    rw [hfiltered, List.map_map]
    exact List.map_congr_left (fun v _ => archiveTaskRewrite_id now v)
  have hnodup : (ts.map Task.id).Nodup := by
    rw [hids]
    exact (List.Nodup.sublist ((s.tasks.filter_sublist).map Task.id) huniq)
  rw [foldl_taskStep_nodup ts hnodup u]
  have hpred : ∀ v : Task, ((archiveTaskRewrite now v).id == u.id) = (v.id == u.id) := by
    intro v
    rw [archiveTaskRewrite_id]
  rw [hfiltered, List.find?_map]
  have hpredeq : ((fun t => t.id == u.id) ∘ archiveTaskRewrite now)
      = (fun v => v.id == u.id) := by
    funext v
    exact hpred v
  rw [hpredeq]
  by_cases hc : (u.projectId == p.id) = true
  · have humem : u ∈ s.tasks.filter (fun t => t.projectId == p.id) :=
      List.mem_filter.mpr ⟨hu, hc⟩
    have hfq : (s.tasks.filter (fun t => t.projectId == p.id)).find?
        (fun v => v.id == u.id) = some u := by
      cases hq : (s.tasks.filter (fun t => t.projectId == p.id)).find?
          (fun v => v.id == u.id) with
      | none =>
        exact absurd (by simp : (u.id == u.id) = true)
          (by simpa using (List.find?_eq_none.mp hq u humem))
      | some v =>
        have hpv := List.find?_some hq
        have hvid : v.id = u.id := by
          simpa using hpv
        have hvs : v ∈ s.tasks := List.mem_of_mem_filter (List.mem_of_find?_eq_some hq)
        have : v = u := List.inj_on_of_nodup_map huniq hvs hu hvid
        rw [this]
    rw [hfq]
    simp only [Option.map_some, Option.getD_some, hc, Bool.true_and]
    cases har : u.archived with
    | true => simp [archiveTaskRewrite, har]
    | false => simp [archiveTaskRewrite, har]
  · have hfq : (s.tasks.filter (fun t => t.projectId == p.id)).find?
        (fun v => v.id == u.id) = none := by
      apply List.find?_eq_none.mpr
      intro v hv hvid
      have hvs : v ∈ s.tasks := List.mem_of_mem_filter hv
      have hveq : v = u :=
        List.inj_on_of_nodup_map huniq hvs hu (beq_iff_eq.mp hvid)
      have hpv := List.of_mem_filter hv
      rw [hveq] at hpv
      exact hc hpv
    rw [hfq]
    simp [hc]

/-! ## Subset lemmas for the listing pipeline -/

theorem stageStatus_subset (o : ListTasksOptions) (ts : List Task) (t : Task)
    (ht : t ∈ stageStatus o ts) : t ∈ ts := by
  unfold stageStatus at ht
  cases hst : o.status with
  | none => simp only [hst] at ht; exact ht
  | some st => simp only [hst] at ht; exact List.mem_of_mem_filter ht

theorem stagePriority_subset (o : ListTasksOptions) (ts : List Task) (t : Task)
    (ht : t ∈ stagePriority o ts) : t ∈ ts := by
  unfold stagePriority at ht
  cases hst : o.priority with
  | none => simp only [hst] at ht; exact ht
  | some p => simp only [hst] at ht; exact List.mem_of_mem_filter ht

theorem stageTags_subset (o : ListTasksOptions) (ts : List Task) (t : Task)
    (ht : t ∈ stageTags o ts) : t ∈ ts := by
  unfold stageTags at ht
  cases hst : o.tags with
  | none => simp only [hst] at ht; exact ht
  | some tags =>
    simp only [hst] at ht
    by_cases hl : tags.length > 0
    · rw [if_pos hl] at ht
      exact List.mem_of_mem_filter ht
    · rwa [if_neg hl] at ht

theorem stageHasSubtasks_subset (s : Store) (o : ListTasksOptions) (ts : List Task) (t : Task)
    (ht : t ∈ stageHasSubtasks s o ts) : t ∈ ts := by
  unfold stageHasSubtasks at ht
  cases hst : o.hasSubtasks with
  | none => simp only [hst] at ht; exact ht
  | some b =>
    simp only [hst] at ht
    cases b with
    | true => exact List.mem_of_mem_filter ht
    | false => exact List.mem_of_mem_filter ht

theorem applyTaskFilters_subset (s : Store) (o : ListTasksOptions) (ts0 : List Task) (t : Task)
    (ht : t ∈ applyTaskFilters s o ts0) : t ∈ ts0 :=
  stageStatus_subset o ts0 t
    (stagePriority_subset o _ t
      (stageTags_subset o _ t
        (stageHasSubtasks_subset s o _ t ht)))

/-! ## Claim theorems -/

/-- C1: archiving a project `P` that is not yet archived succeeds with
`P.updatedAt` bumped to the call's timestamp, and afterwards every stored task
of `P` is archived with archived status; every task of `P` that was not
already archived is rewritten to archived status and flag with `updatedAt`
equal to the project's new `updatedAt`, and every already-archived task of `P`
is kept unchanged in the store. -/
theorem c1_archive_cascades_to_tasks (s : Store) (id now : String) (p : Project)
    (hfind : projGetById s id = some p) (hnarch : p.archived = false)
    (huniq : TaskIdsNodup s) (hwf : TasksWF s) :
    (archiveProject s id now).result = .ok { p with archived := true, updatedAt := now }
    ∧ (∀ t ∈ (archiveProject s id now).store.tasks,
        t.projectId = p.id → t.status = TaskStatus.archived ∧ t.archived = true)
    ∧ (∀ t ∈ s.tasks, t.projectId = p.id → t.archived = false →
        ({ t with archived := true, status := TaskStatus.archived, updatedAt := now } : Task)
          ∈ (archiveProject s id now).store.tasks)
    ∧ (∀ t ∈ s.tasks, t.projectId = p.id → t.archived = true →
        t ∈ (archiveProject s id now).store.tasks) := by
  refine ⟨archiveProject_result s id now p hfind hnarch, ?_, ?_, ?_⟩
  · rw [archiveProject_tasks s id now p hfind hnarch huniq]
    intro t ht hpid
    obtain ⟨u, hu, hgu⟩ := List.mem_map.mp ht
    by_cases hc : (u.projectId == p.id && !u.archived) = true
    · rw [if_pos hc] at hgu
      rw [← hgu]
      exact ⟨rfl, rfl⟩
    · rw [if_neg hc] at hgu
      rw [← hgu] at hpid ⊢
      have ha : (u.projectId == p.id) = true := beq_iff_eq.mpr hpid
      have har : u.archived = true := by
        cases hb : u.archived with
        | true => rfl
        | false => exact absurd (by rw [ha, hb]; rfl) hc
      refine ⟨?_, har⟩
      have hwt := hwf u hu
      rw [har] at hwt
      exact beq_iff_eq.mp hwt.symm
  · intro t ht hpid har
    rw [archiveProject_tasks s id now p hfind hnarch huniq]
    have hc : (t.projectId == p.id && !t.archived) = true := by
      rw [beq_iff_eq.mpr hpid, har]
      rfl
    exact List.mem_map.mpr ⟨t, ht, by rw [if_pos hc]⟩
  · intro t ht hpid har
    rw [archiveProject_tasks s id now p hfind hnarch huniq]
    have hc : ¬((t.projectId == p.id && !t.archived) = true) := by
      rw [har]
      simp
    exact List.mem_map.mpr ⟨t, ht, by rw [if_neg hc]⟩

/-- Witness for C1 at the demo store: the cascade rewrites the demo task. -/
theorem c1_archive_cascades_to_tasks_witness :
    ({ demoTask with
        archived := true
        status := TaskStatus.archived
        updatedAt := "2025-03-01T00:00:00Z" } : Task)
      ∈ (archiveProject demoStore "p1" "2025-03-01T00:00:00Z").store.tasks :=
  (c1_archive_cascades_to_tasks demoStore "p1" "2025-03-01T00:00:00Z" demoProject
      (by decide) (by decide) (by unfold TaskIdsNodup; decide)
      (by unfold TasksWF; decide)).2.2.1
    demoTask (by decide) (by decide) (by decide)

theorem projGetById_archiveProject (s : Store) (id now : String) (p : Project)
    (hfind : projGetById s id = some p) (hnarch : p.archived = false) :
    projGetById (archiveProject s id now).store id
      = some { p with archived := true, updatedAt := now } := by
  unfold projGetById
  rw [archiveProject_projects s id now p hfind hnarch, List.find?_map]
  have hcomp : ((fun q : Project => q.id == id) ∘
      (fun q => if q.id == p.id then { p with archived := true, updatedAt := now } else q))
      = fun q : Project => q.id == id := by
    funext q
    by_cases hq : (q.id == p.id) = true
    · simp only [Function.comp_apply, if_pos hq]
      have : q.id = p.id := beq_iff_eq.mp hq
      rw [show ({ p with archived := true, updatedAt := now } : Project).id = p.id from rfl, this]
    · simp only [Function.comp_apply, if_neg hq]
  rw [hcomp]
  unfold projGetById at hfind
  rw [hfind]
  simp

/-- C5: archiving an archivable project twice is the same as archiving it
once: the second call returns the project exactly as the first call stored it,
leaves the whole store unchanged, and its trace is a single project read — no
project write and no task read or write. -/
theorem c5_archive_idempotent (s : Store) (id now now2 : String) (p1 : Project)
    (h : (archiveProject s id now).result = .ok p1) :
    (archiveProject (archiveProject s id now).store id now2).result = .ok p1
    ∧ (archiveProject (archiveProject s id now).store id now2).store
        = (archiveProject s id now).store
    ∧ (archiveProject (archiveProject s id now).store id now2).trace
        = [RepoOp.projGet id] := by
  cases hq : projGetById s id with
  | none =>
    unfold archiveProject at h
    rw [hq] at h
    simp at h
  | some p =>
    by_cases hp : p.archived = true
    · have h1 : archiveProject s id now = ⟨.ok p, s, [.projGet id]⟩ := by
        unfold archiveProject
        rw [hq]
        simp [hp]
      rw [h1] at h
      have hp1 : p1 = p := by
        simpa using h.symm
      rw [h1]
      show (archiveProject s id now2).result = .ok p1
        ∧ (archiveProject s id now2).store = s
        ∧ (archiveProject s id now2).trace = [RepoOp.projGet id]
      have h2 : archiveProject s id now2 = ⟨.ok p, s, [.projGet id]⟩ := by
        unfold archiveProject
        rw [hq]
        simp [hp]
      rw [h2, hp1]
      exact ⟨rfl, rfl, rfl⟩
    · have hnarch : p.archived = false := by
        cases hb : p.archived with
        | true => exact absurd hb hp
        | false => rfl
      have hres := archiveProject_result s id now p hq hnarch
      rw [hres] at h
      have hp1 : p1 = { p with archived := true, updatedAt := now } := by
        simpa using h.symm
      have hfind2 := projGetById_archiveProject s id now p hq hnarch
      generalize hs2 : (archiveProject s id now).store = s2 at hfind2 ⊢
      unfold archiveProject
      rw [hfind2]
      simp [hp1]

/-- Witness for C5: the second archive call at the demo store is a pure read. -/
theorem c5_archive_idempotent_witness :
    (archiveProject (archiveProject demoStore "p1" "TS1").store "p1" "TS2").store
      = (archiveProject demoStore "p1" "TS1").store :=
  (c5_archive_idempotent demoStore "p1" "TS1" "TS2"
      { demoProject with archived := true, updatedAt := "TS1" } (by decide)).2.1

/-! ## Preservation of the archived-flag invariant -/

theorem tasksWF_saveTask (s : Store) (t : Task) (hwf : TasksWF s)
    (ht : t.archived = (t.status == TaskStatus.archived)) :
    TasksWF (saveTask s t) := by
  intro u hu
  rw [saveTask_tasks] at hu
  obtain ⟨v, hv, hvu⟩ := List.mem_map.mp hu
  by_cases hc : (v.id == t.id) = true
  · rw [show taskStep v t = t by rw [taskStep, if_pos hc]] at hvu
    rw [← hvu]
    exact ht
  · rw [show taskStep v t = v by rw [taskStep, if_neg hc]] at hvu
    rw [← hvu]
    exact hwf v hv

theorem tasksWF_saveManyTasks (s : Store) (ts : List Task) (hwf : TasksWF s)
    (hts : ∀ t ∈ ts, t.archived = (t.status == TaskStatus.archived)) :
    TasksWF (saveManyTasks s ts) := by
  intro u hu
  rw [saveManyTasks_tasks] at hu
  obtain ⟨v, hv, hvu⟩ := List.mem_map.mp hu
  rcases foldl_taskStep_mem ts v with hcase | hcase
  · rw [hcase] at hvu
    rw [← hvu]
    exact hwf v hv
  · rw [← hvu]
    exact hts _ hcase

theorem tasksWF_createTaskRecord (s : Store) (t : Task) (hwf : TasksWF s)
    (ht : t.archived = (t.status == TaskStatus.archived)) :
    TasksWF (createTaskRecord s t) := by
  intro u hu
  rcases List.mem_append.mp hu with hcase | hcase
  · exact hwf u hcase
  · rw [List.mem_singleton.mp hcase]
    exact ht

theorem statusOfString_beq (status : String) (st : TaskStatus)
    (h : statusOfString status = some st) :
    (status == "archived") = (st == TaskStatus.archived) := by
  unfold statusOfString at h
  by_cases h1 : (status == "todo") = true
  · rw [if_pos h1] at h
    injection h with h2
    rw [beq_iff_eq.mp h1, ← h2]
    decide
  · rw [if_neg h1] at h
    by_cases h2 : (status == "pending") = true
    · rw [if_pos h2] at h
      injection h with h3
      rw [beq_iff_eq.mp h2, ← h3]
      decide
    · rw [if_neg h2] at h
      by_cases h3 : (status == "completed") = true
      · rw [if_pos h3] at h
        injection h with h4
        rw [beq_iff_eq.mp h3, ← h4]
        decide
      · rw [if_neg h3] at h
        by_cases h4 : (status == "archived") = true
        · rw [if_pos h4] at h
          injection h with h5
          rw [h4, ← h5]
          decide
        · rw [if_neg h4] at h
          exact absurd h (by simp)

theorem tasksWF_moveTask (s : Store) (taskId status now : String) (hwf : TasksWF s) :
    TasksWF ((moveTask s taskId status now).store) := by
  unfold moveTask
  split
  · exact hwf
  · rename_i task hfound
    split
    · exact hwf
    · rename_i project hproj
      split
      · exact hwf
      · split
        · exact hwf
        · rename_i st hsos
          exact tasksWF_saveTask s _ hwf (statusOfString_beq status st hsos)

theorem tasksWF_updateTask (s : Store) (input : UpdateTaskInput) (now : String)
    (hwf : TasksWF s) : TasksWF ((updateTask s input now).store) := by
  unfold updateTask
  split
  · exact hwf
  · rename_i task hfound
    split
    · exact hwf
    · rename_i project hproj
      split
      · exact hwf
      · have htask : task ∈ s.tasks := by
          unfold taskGetById at hfound
          exact List.mem_of_find?_eq_some hfound
        exact tasksWF_saveTask s _ hwf (hwf task htask)

theorem tasksWF_createTask (s : Store) (input : CreateTaskInput) (freshId now : String)
    (hwf : TasksWF s) : TasksWF ((createTask s input freshId now).store) := by
  unfold createTask
  split
  · exact hwf
  · rename_i project hproj
    split
    · exact hwf
    · dsimp only
      split
      · split
        · exact hwf
        · split
          · exact hwf
          · exact tasksWF_createTaskRecord s _ hwf rfl
      · exact tasksWF_createTaskRecord s _ hwf rfl

theorem tasksWF_archiveProject (s : Store) (id now : String) (hwf : TasksWF s) :
    TasksWF ((archiveProject s id now).store) := by
  unfold archiveProject
  split
  · exact hwf
  · rename_i project hproj
    split
    · exact hwf
    · dsimp only
      refine tasksWF_saveManyTasks _ _ ?_ ?_
      · exact hwf
      intro t ht
      obtain ⟨v, hv, hvt⟩ := List.mem_map.mp ht
      rw [← hvt]
      unfold archiveTaskRewrite
      by_cases hva : v.archived = true
      · rw [if_pos hva]
        exact hwf v (List.mem_of_mem_filter hv)
      · rw [if_neg hva]
        rfl

/-- C6: every mutating task operation — `createTask`, `updateTask`,
`moveTask`, `archiveTask`, and the `archiveProject` cascade — preserves the
invariant that every stored task's archived flag equals
`status == "archived"`. -/
theorem c6_archived_flag_invariant (s : Store) (hwf : TasksWF s) :
    (∀ input freshId now, TasksWF ((createTask s input freshId now).store))
    ∧ (∀ input now, TasksWF ((updateTask s input now).store))
    ∧ (∀ taskId status now, TasksWF ((moveTask s taskId status now).store))
    ∧ (∀ taskId now, TasksWF ((archiveTask s taskId now).store))
    ∧ (∀ id now, TasksWF ((archiveProject s id now).store)) :=
  ⟨fun input freshId now => tasksWF_createTask s input freshId now hwf,
   fun input now => tasksWF_updateTask s input now hwf,
   fun taskId status now => tasksWF_moveTask s taskId status now hwf,
   fun taskId now => tasksWF_moveTask s taskId "archived" now hwf,
   fun id now => tasksWF_archiveProject s id now hwf⟩

/-- Witness for C6: the invariant holds at the demo store and is kept by a
concrete move to `completed`. -/
theorem c6_archived_flag_invariant_witness :
    TasksWF ((moveTask demoStore "t1" "completed" "TS").store) :=
  (c6_archived_flag_invariant demoStore (by unfold TasksWF; decide)).2.2.1 "t1" "completed" "TS"

/-- C9: on an existing task under an active project, `updateTask` returns and
persists a record in which each of title, description, priority, dueDate and
tags takes the supplied value when one is supplied (title and description
trimmed) and keeps the task's previous value when not; `updatedAt` is bumped
to the call's timestamp; and id, projectId, status, archived, parentTaskId
and createdAt are unchanged. -/
theorem c9_update_overwrites_only_supplied_fields (s : Store) (input : UpdateTaskInput)
    (now : String) (task : Task) (proj : Project)
    (htask : taskGetById s input.taskId = some task)
    (hproj : projGetById s task.projectId = some proj)
    (hactive : proj.archived = false) :
    ∃ r, (updateTask s input now).result = .ok r
      ∧ (updateTask s input now).store = saveTask s r
      ∧ r.title = (match input.title with | some t => jsTrim t | none => task.title)
      ∧ r.description
          = (match input.description with | some d => some (jsTrim d) | none => task.description)
      ∧ r.priority = (match input.priority with | some p => some p | none => task.priority)
      ∧ r.dueDate = (match input.dueDate with | some d => some d | none => task.dueDate)
      ∧ r.tags = (match input.tags with | some tg => tg | none => task.tags)
      ∧ r.updatedAt = now
      ∧ r.id = task.id ∧ r.projectId = task.projectId ∧ r.status = task.status
      ∧ r.archived = task.archived ∧ r.parentTaskId = task.parentTaskId
      ∧ r.createdAt = task.createdAt := by
  have hactive2 : ¬(proj.archived = true) := by
    rw [hactive]
    simp
  refine ⟨{ task with
      title := match input.title with | some t => jsTrim t | none => task.title
      description := match input.description with
        | some d => some (jsTrim d)
        | none => task.description
      priority := match input.priority with | some p => some p | none => task.priority
      dueDate := match input.dueDate with | some d => some d | none => task.dueDate
      tags := match input.tags with | some tg => tg | none => task.tags
      updatedAt := now },
    ?_, ?_, rfl, rfl, rfl, rfl, rfl, rfl, rfl, rfl, rfl, rfl, rfl, rfl⟩
  · unfold updateTask
    simp only [htask, hproj]
    rw [if_neg hactive2]
  · unfold updateTask
    simp only [htask, hproj]
    rw [if_neg hactive2]

/-- Witness for C9: a concrete update of the demo task's title keeps every
other field. -/
theorem c9_update_overwrites_only_supplied_fields_witness :
    ∃ r, (updateTask demoStore { taskId := "t1", title := some "New title" } "TS").result
        = .ok r
      ∧ r.title = jsTrim "New title" ∧ r.status = demoTask.status
      ∧ r.createdAt = demoTask.createdAt := by
  obtain ⟨r, hres, _, ht, _, _, _, _, _, _, _, hst, _, _, hcr⟩ :=
    c9_update_overwrites_only_supplied_fields demoStore
      { taskId := "t1", title := some "New title" } "TS" demoTask demoProject
      (by decide) (by decide) (by decide)
  exact ⟨r, hres, by simpa using ht, hst, hcr⟩

/-- C10: `moveTask` and `updateTask` are atomic on error: whenever either
returns an error — unknown task id, archived owning project, or (for
`moveTask`) a status outside the four-value enum — the store is exactly the
store before the call and the trace holds no write operation. -/
theorem c10_move_update_atomic_on_error (s : Store) :
    (∀ taskId status now e, (moveTask s taskId status now).result = .error e →
        (moveTask s taskId status now).store = s
        ∧ (moveTask s taskId status now).trace.all (fun op => !op.isWrite) = true)
    ∧ (∀ input now e, (updateTask s input now).result = .error e →
        (updateTask s input now).store = s
        ∧ (updateTask s input now).trace.all (fun op => !op.isWrite) = true) := by
  constructor
  · intro taskId status now e h
    unfold moveTask at h ⊢
    cases hq : taskGetById s taskId with
    | none =>
      simp only [hq] at h ⊢
      exact ⟨by simp, by simp [RepoOp.isWrite]⟩
    | some task =>
      simp only [hq] at h ⊢
      cases hp : projGetById s task.projectId with
      | none =>
        simp only [hp] at h ⊢
        exact ⟨by simp, by simp [RepoOp.isWrite]⟩
      | some project =>
        simp only [hp] at h ⊢
        by_cases hpa : project.archived = true
        · rw [if_pos hpa] at h ⊢
          exact ⟨by simp, by simp [RepoOp.isWrite]⟩
        · rw [if_neg hpa] at h ⊢
          cases hsos : statusOfString status with
          | none =>
            simp only [hsos] at h ⊢
            exact ⟨by simp, by simp [RepoOp.isWrite]⟩
          | some st =>
            simp only [hsos] at h
            simp at h
  · intro input now e h
    unfold updateTask at h ⊢
    cases hq : taskGetById s input.taskId with
    | none =>
      simp only [hq] at h ⊢
      exact ⟨by simp, by simp [RepoOp.isWrite]⟩
    | some task =>
      simp only [hq] at h ⊢
      cases hp : projGetById s task.projectId with
      | none =>
        simp only [hp] at h ⊢
        exact ⟨by simp, by simp [RepoOp.isWrite]⟩
      | some project =>
        simp only [hp] at h ⊢
        by_cases hpa : project.archived = true
        · rw [if_pos hpa] at h ⊢
          exact ⟨by simp, by simp [RepoOp.isWrite]⟩
        · rw [if_neg hpa] at h
          simp at h

/-- Witness for C10: moving a nonexistent task id errors and leaves the demo
store untouched. -/
theorem c10_move_update_atomic_on_error_witness :
    (moveTask demoStore "zzz" "todo" "TS").store = demoStore :=
  ((c10_move_update_atomic_on_error demoStore).1 "zzz" "todo" "TS"
      "Task zzz does not exist." (by decide)).1

/-- C3: evaluating the spec's search scenario — query
`priority:high due:before:2025-12-01 launch` against a task titled
"Launch prep" with priority high and no due date — returns the task, not the
empty list: `split(":", 2)` truncates the due token to key `due` and value
`before`, so no due-before predicate is extracted at all; and even a parsed
due-before predicate is skipped for tasks without a due date. -/
theorem c3_search_scenario_returns_task :
    (parseSearchQuery "priority:high due:before:2025-12-01 launch").dueBefore = none
    ∧ parseSearchQuery "priority:high due:before:2025-12-01 launch"
        = { text := some "launch", priority := some TaskPriority.high }
    ∧ demoTask.priority = some TaskPriority.high
    ∧ demoTask.dueDate = none
    ∧ taskMatchesSearch { dueBefore := some "2025-12-01" } demoTask = true
    ∧ searchTasks demoStore (some "priority:high due:before:2025-12-01 launch")
        none none none none = .ok [demoTask] := by
  decide

/-- C4: `createTask` has no starting-status input and unconditionally stores
status `todo` with `archived = false`, for every call that succeeds. -/
theorem c4_createTask_always_todo (s : Store) (input : CreateTaskInput)
    (freshId now : String) (task : Task)
    (h : (createTask s input freshId now).result = .ok task) :
    task.status = TaskStatus.todo ∧ task.archived = false := by
  unfold createTask at h
  cases hq : projGetById s input.projectId with
  | none =>
    simp only [hq] at h
    simp at h
  | some project =>
    simp only [hq] at h
    by_cases hpa : project.archived = true
    · rw [if_pos hpa] at h
      simp at h
    · rw [if_neg hpa] at h
      by_cases hpt : optTruthy input.parentTaskId = true
      · rw [if_pos hpt] at h
        cases hg : taskGetById s (input.parentTaskId.getD "") with
        | none =>
          simp only [hg] at h
          simp at h
        | some parent =>
          simp only [hg] at h
          by_cases hsp : (parent.projectId != input.projectId) = true
          · rw [if_pos hsp] at h
            simp at h
          · rw [if_neg hsp] at h
            simp only [Except.ok.injEq] at h
            rw [← h]
            exact ⟨rfl, rfl⟩
      · rw [if_neg hpt] at h
        simp only [Except.ok.injEq] at h
        rw [← h]
        exact ⟨rfl, rfl⟩

/-- Witness for C4: a concrete create at the demo store comes out `todo` and
not archived. -/
theorem c4_createTask_always_todo_witness :
    ∃ task, (createTask demoStore { projectId := "p1", title := "Archived task" } "t9" "TS").result
        = .ok task
      ∧ task.status = TaskStatus.todo ∧ task.archived = false :=
  ⟨_, rfl, c4_createTask_always_todo demoStore
    { projectId := "p1", title := "Archived task" } "t9" "TS" _ rfl⟩

/-- C7 counterexample: a name that is empty after normalization is accepted —
`createProject` succeeds (the claim requires a `ValidationError`) — and the
double space inside the description is stored un-collapsed (the claim
requires internal whitespace collapsed). -/
theorem c7_counterexample :
    (createProject demoStore { name := " ", description := some "c  d" } "id9" "TS").result
      = .ok
        { id := "id9"
          name := ""
          description := some "c  d"
          archived := false
          createdAt := "TS"
          updatedAt := "TS" } := by
  decide

/-- C7 (amended): `createProject` stores the name and description merely
trimmed — internal whitespace is not collapsed — on a record that carries no
tags, and performs no validation: every call succeeds, also when the name is
empty after trimming, which is stored as the empty string. -/
theorem c7_createProject_trims_only (s : Store) (input : CreateProjectInput)
    (freshId now : String) :
    (createProject s input freshId now).result
      = .ok
        { id := freshId
          name := jsTrim input.name
          description := input.description.map jsTrim
          archived := false
          createdAt := now
          updatedAt := now }
    ∧ (createProject s input freshId now).store.projects
        = s.projects ++
          [{ id := freshId
             name := jsTrim input.name
             description := input.description.map jsTrim
             archived := false
             createdAt := now
             updatedAt := now }] :=
  ⟨rfl, rfl⟩

/-- C8: a whitespace-only title passes every emptiness check and is stored as
the empty string: `updateTask` with title `" "` succeeds and persists an
empty-titled task, and `createTask` with title `" "` likewise stores an empty
title — no `ValidationError` is raised by either operation. -/
theorem c8_whitespace_title_stored_empty :
    (updateTask demoStore { taskId := "t1", title := some " " } "TS").result
      = .ok { demoTask with title := "", updatedAt := "TS" }
    ∧ ({ demoTask with title := "", updatedAt := "TS" } : Task)
        ∈ (updateTask demoStore { taskId := "t1", title := some " " } "TS").store.tasks
    ∧ (createTask demoStore { projectId := "p1", title := " " } "t9" "TS").result
      = .ok
        { id := "t9"
          projectId := "p1"
          title := ""
          description := none
          status := TaskStatus.todo
          priority := none
          dueDate := none
          tags := []
          parentTaskId := none
          archived := false
          createdAt := "TS"
          updatedAt := "TS" } := by
  decide

/-- C2: every `listTasks` call with `includeArchived` false returns no task
whose own archived flag is set and no task whose owning project is archived,
and when `projectId` names an archived project the result short-circuits to
the empty list. -/
theorem c2_listTasks_hides_archived (s : Store) (o : ListTasksOptions) (ts : List Task)
    (hinc : o.includeArchived.getD false = false)
    (hpuniq : ProjIdsNodup s) (hpres : ProjIdsPresent s)
    (h : listTasks s o = .ok ts) :
    (∀ t ∈ ts, t.archived = false)
    ∧ (∀ t ∈ ts, ∀ p ∈ s.projects, p.id = t.projectId → p.archived = false)
    ∧ (∀ pid p, o.projectId = some pid → projGetById s pid = some p →
        p.archived = true → ts = []) := by
  unfold listTasks at h
  rw [hinc] at h
  by_cases hq : optTruthy o.projectId = true
  · rw [if_pos hq] at h
    cases hfp : projGetById s (o.projectId.getD "") with
    | none =>
      simp only [hfp] at h
      simp at h
    | some project =>
      simp only [hfp] at h
      by_cases hpa : project.archived = true
      · have hcond : (project.archived && !false) = true := by
          rw [hpa]
          rfl
        rw [if_pos hcond] at h
        have hts : ts = [] := by
          simpa using h.symm
        subst hts
        exact ⟨by simp, by simp, fun _ _ _ _ _ => rfl⟩
      · have hfa : project.archived = false := by
          revert hpa
          cases project.archived <;> simp
        have hcond : ¬((project.archived && !false) = true) := by
          rw [hfa]
          simp
        rw [if_neg hcond] at h
        have hts : ts = jsSortTasks (o.sortBy.getD SortBy.createdAt) (o.order.getD SortOrder.asc)
            (applyTaskFilters s o
              ((taskListByProject s project.id).filter (fun t => !t.archived))) := by
          simpa using h.symm
        have hsub : ∀ t ∈ ts, t ∈ (taskListByProject s project.id).filter (fun t => !t.archived) := by
          intro t ht
          rw [hts] at ht
          exact applyTaskFilters_subset s o _ t (mem_jsSortTasks.mp ht)
        have hproj : project ∈ s.projects := by
          unfold projGetById at hfp
          exact List.mem_of_find?_eq_some hfp
        refine ⟨?_, ?_, ?_⟩
        · intro t ht
          have hf := (List.mem_filter.mp (hsub t ht)).2
          simp at hf
          exact hf
        · intro t ht p hp hpid
          have hmem := List.mem_of_mem_filter (hsub t ht)
          unfold taskListByProject at hmem
          have hpid2 := List.of_mem_filter hmem
          have hpid3 : t.projectId = project.id := beq_iff_eq.mp hpid2
          have : p = project := List.inj_on_of_nodup_map hpuniq hp hproj (by rw [hpid, hpid3])
          rw [this]
          exact hfa
        · intro pid p hpid hfp2 hpa2
          rw [hpid] at hfp
          simp only [Option.getD_some] at hfp
          rw [hfp] at hfp2
          have : p = project := by
            simpa using hfp2.symm
          rw [this] at hpa2
          exact absurd hpa2 hpa
  · rw [if_neg hq] at h
    have hts : ts = jsSortTasks (o.sortBy.getD SortBy.createdAt) (o.order.getD SortOrder.asc)
        (applyTaskFilters s o
          (s.tasks.filter (fun t =>
            !t.archived &&
              match projectMapGet (listProjects s true) t.projectId with
              | some p => !p.archived
              | none => false))) := by
      simpa using h.symm
    have hsub : ∀ t ∈ ts, t ∈ s.tasks.filter (fun t =>
        !t.archived &&
          match projectMapGet (listProjects s true) t.projectId with
          | some p => !p.archived
          | none => false) := by
      intro t ht
      rw [hts] at ht
      exact applyTaskFilters_subset s o _ t (mem_jsSortTasks.mp ht)
    refine ⟨?_, ?_, ?_⟩
    · intro t ht
      have hf := (List.of_mem_filter (hsub t ht))
      have hf1 := (Bool.and_eq_true _ _).mp hf |>.1
      simp at hf1
      exact hf1
    · intro t ht p hp hpid
      have hf := (List.of_mem_filter (hsub t ht))
      have hf2 := (Bool.and_eq_true _ _).mp hf |>.2
      cases hm : projectMapGet (listProjects s true) t.projectId with
      | none =>
        rw [hm] at hf2
        simp at hf2
      | some p0 =>
        rw [hm] at hf2
        have hp0a : p0.archived = false := by
          simp at hf2
          exact hf2
        have hp0mem : p0 ∈ s.projects := by
          unfold projectMapGet at hm
          have h1 := List.mem_of_find?_eq_some hm
          rw [List.mem_reverse] at h1
          unfold listProjects at h1
          rw [if_pos rfl] at h1
          exact (mem_isort p0 s.projects).mp h1
        have hp0id : p0.id = t.projectId := by
          have h2 := List.find?_some hm
          exact beq_iff_eq.mp h2
        have : p = p0 := List.inj_on_of_nodup_map hpuniq hp hp0mem (by rw [hpid, hp0id])
        rw [this]
        exact hp0a
    · intro pid p hpid hfp2 hpa2
      rw [hpid] at hq
      have hempty : pid = "" := by
        have h1 : pid.isEmpty = true := by
          revert hq
          show ¬((!pid.isEmpty) = true) → pid.isEmpty = true
          cases pid.isEmpty
          · intro hq2
            exact absurd rfl hq2
          · intro _
            rfl
        exact (String.isEmpty_iff pid).mp h1
      have hpmem : p ∈ s.projects := by
        unfold projGetById at hfp2
        exact List.mem_of_find?_eq_some hfp2
      have hpid2 : p.id = pid := by
        have h2 := List.find?_some hfp2
        exact beq_iff_eq.mp h2
      exact absurd (hpid2.trans hempty) (hpres p hpmem)

/-- Witness for C2 at the demo store with default options: the returned demo
task is not archived. -/
theorem c2_listTasks_hides_archived_witness : demoTask.archived = false :=
  (c2_listTasks_hides_archived demoStore {} [demoTask] (by decide)
      (by unfold ProjIdsNodup; decide) (by unfold ProjIdsPresent; decide)
      (by decide)).1 demoTask (by decide)

end TasksMcp
